import Mathlib

/-!
Verification development for the llm7.chat client-side streaming transport
(src/lib/browser-chat-transport.ts and the token helper in src/lib/auth).

JavaScript strings are modelled as lists of characters (`Str`).  External
library functions that the transport merely calls (JSON.parse for SSE
payloads, fetch, TextDecoder byte reassembly, encodeURIComponent /
decodeURIComponent) are modelled as parameters or as small explicit models;
everything written in the repository itself is translated definition by
definition from the source.
-/

namespace LLM7

/-- JavaScript strings, modelled as lists of characters. -/
abbrev Str := List Char

/-- Embed a Lean string literal as a `Str`. -/
def lit (s : String) : Str := s.toList

/-- Whitespace characters removed by `String.prototype.trim` (the ASCII ones,
which are the only ones relevant to this development). -/
def isWs (c : Char) : Bool := c = ' ' || c = '\t' || c = '\n' || c = '\r'

/-- Model of `s.trim()`: remove leading and trailing whitespace. -/
def trim (s : Str) : Str := ((s.dropWhile isWs).reverse.dropWhile isWs).reverse

/-- Leftmost, non-overlapping split of a string on the two-character separator
`a b`; the last element of the result is the trailing remainder that contains
no further separator.  This models `String.prototype.split` with a
two-character separator, and equally the repeated
`indexOf(sep)` / `slice` loop of the SSE decoder (see
`splitOnSep_of_splitFirstSep_none` and `splitOnSep_of_splitFirstSep_some`
below, which prove exactly that loop equation). -/
def splitOnSep (a b : Char) : Str → List Str
  | [] => [[]]
  | [c] => [[c]]
  | c1 :: c2 :: rest =>
    if c1 = a ∧ c2 = b then
      [] :: splitOnSep a b rest
    else
      match splitOnSep a b (c2 :: rest) with
      | [] => [[c1]]
      | p :: ps => (c1 :: p) :: ps

/-- The position of the leftmost occurrence of the two-character separator
`a b` in a string, as the pair (text before it, text after it); `none` when
the separator does not occur.  This is the direct model of
`buffer.indexOf(sep)` together with the two `slice` calls around it. -/
def splitFirstSep (a b : Char) : Str → Option (Str × Str)
  | [] => none
  | [_] => none
  | c1 :: c2 :: rest =>
    if c1 = a ∧ c2 = b then
      some ([], rest)
    else
      match splitFirstSep a b (c2 :: rest) with
      | some (p, q) => some (c1 :: p, q)
      | none => none

/-- Rejoin a list of segments with the two-character separator `a b`
(inverse of `splitOnSep`). -/
def sepJoin (a b : Char) : List Str → Str
  | [] => []
  | [p] => p
  | p :: ps => p ++ a :: b :: sepJoin a b ps

/-- Model of `rawEvent.split("\n")`. -/
def splitLines : Str → List Str
  | [] => [[]]
  | c :: rest =>
    if c = '\n' then
      [] :: splitLines rest
    else
      match splitLines rest with
      | [] => [[c]]
      | l :: ls => (c :: l) :: ls

/-- Join a list of strings with a `"\n"` separator between elements:
`Array.prototype.join("\n")`, and equally the rendering of an SSE frame
from its lines. -/
def joinLines : List Str → Str
  | [] => []
  | [l] => l
  | l :: ls => l ++ '\n' :: joinLines ls

/-- The literal line prefix `"data:"`. -/
def dataPrefixLit : Str := lit "data:"

/-- The literal termination sentinel `"[DONE]"`. -/
def doneLit : Str := lit "[DONE]"

/-!
The SSE payload parser is abstracted as a parameter
`pd : Str → Option Str`.  It models the external composition
`JSON.parse(payload)` followed by the field access
`parsed.choices?.[0]?.delta?.content`: `pd payload = some d` when the payload
parses and that field is the string `d`, and `none` when parsing fails or the
field is absent or not a string.  Every theorem below quantifies over `pd`,
so nothing is assumed about the JSON library.
-/

/-- The `for (const line of lines)` loop body of `extractTextChunks`
(src/lib/browser-chat-transport.ts lines 482-505): keep the line order,
collect `choices[0].delta.content` strings of nonempty length, record
whether a `data: [DONE]` line was seen, skip everything else (including
payloads the JSON parser rejects, which the source merely logs). -/
def extractLoop (pd : Str → Option Str) : List Str → List Str × Bool
  | [] => ([], false)
  | line :: rest =>
    let out := extractLoop pd rest
    let trimmed := trim line
    if dataPrefixLit.isPrefixOf trimmed then
      let payload := trim (trimmed.drop 5)
      if payload = [] then out
      else if payload = doneLit then (out.1, true)
      else
        match pd payload with
        | some d => if d = [] then out else (d :: out.1, out.2)
        | none => out
    else out

/-- Model of `extractTextChunks` (src/lib/browser-chat-transport.ts lines
475-508): split the raw event on `"\n"` and run the line loop. -/
def extractTextChunks (pd : Str → Option Str) (rawEvent : Str) :
    List Str × Bool :=
  extractLoop pd (splitLines rawEvent)

/-- The inner `while (boundary !== -1)` loop of `parseSseToTextStream`
(lines 275-289), expressed over the segment list produced by splitting the
buffer at every `"\n\n"` boundary: every segment except the last is a
complete frame and is processed in order; the last segment is the new buffer
remainder.  Processing stops at the first frame whose extraction reports the
termination sentinel; in that case the third component is the unprocessed
remainder of the buffer (everything after that frame), which the source
discards when it returns. -/
def drainLoop (pd : Str → Option Str) : List Str → List Str × Bool × Str
  | [] => ([], false, [])
  | [rest] => ([], false, rest)
  | f :: parts =>
    let e := extractTextChunks pd f
    if e.2 then (e.1, true, sepJoin '\n' '\n' parts)
    else
      let out := drainLoop pd parts
      (e.1 ++ out.1, out.2.1, out.2.2)

/-- One round of the boundary loop on a concrete buffer: slice off the
complete frames, process them in order until a sentinel frame, and keep the
remainder. -/
def drainFrames (pd : Str → Option Str) (buf : Str) : List Str × Bool × Str :=
  drainLoop pd (splitOnSep '\n' '\n' buf)

/-- Model of `parseSseToTextStream` (src/lib/browser-chat-transport.ts lines
248-296).  The upstream byte stream appears as the list of its text chunks
(`TextDecoder.decode(value, \x7bstream: true\x7d)` reassembles split UTF-8
sequences, so each byte chunk contributes a text chunk and their
concatenation is the whole stream text); `buffer` is the closed-over mutable
buffer, `""` at the start.  The result is the list of emitted text deltas
together with `true` when the stream was closed by the `[DONE]` sentinel
(in which case the source also cancels the upstream reader) and `false` when
it was closed by upstream end-of-stream.  The end-of-stream branch trims the
remaining buffer and, when nonempty, processes it as one trailing frame. -/
def parseSseToTextStream (pd : Str → Option Str) :
    List Str → Str → List Str × Bool
  | [], buffer =>
    let b := trim buffer
    if b = [] then ([], false)
    else ((extractTextChunks pd b).1, false)
  | c :: cs, buffer =>
    let d := drainFrames pd (buffer ++ c)
    if d.2.1 then (d.1, true)
    else
      let out := parseSseToTextStream pd cs d.2.2
      (d.1 ++ out.1, out.2)

/-- The constant text stream id `TEXT_STREAM_ID = "text-1"` (line 40). -/
def textStreamId : Str := lit "text-1"

/-- The UI chunk variants used by the transport
(`UIMessageChunk` events it enqueues). -/
inductive Chunk where
  | start : Chunk
  | startStep : Chunk
  | textStart : Str → Chunk
  | textDelta : Str → Str → Chunk
  | textEnd : Str → Chunk
  | finishStep : Chunk
  | finish : Chunk
  | error : Str → Chunk
deriving DecidableEq

/-- Model of `toUiMessageStream` (lines 428-460): the wrapper enqueues
`start`, `start-step`, `text-start` up front, republishes every decoded text
delta as a `text-delta` chunk with the constant id, and on exhaustion of the
text stream closes with `text-end`, `finish-step`, `finish`. -/
def toUiMessageStream (deltas : List Str) : List Chunk :=
  [Chunk.start, Chunk.startStep, Chunk.textStart textStreamId] ++
    deltas.map (fun d => Chunk.textDelta textStreamId d) ++
    [Chunk.textEnd textStreamId, Chunk.finishStep, Chunk.finish]

/-- `TransportErrorInfo` (src/lib/browser-chat-transport.ts lines 30-36). -/
structure TransportErrorInfo where
  status : Int
  statusText : Str
  authed : Bool
  sub : Option Int
  message : Str
deriving DecidableEq

/-- JSON values, as produced by the external `JSON.parse` /
`response.json()`. -/
inductive JVal where
  | jnull : JVal
  | jbool : Bool → JVal
  | jnum : Int → JVal
  | jstr : Str → JVal
  | jarr : List JVal → JVal
  | jobj : List (Str × JVal) → JVal

/-- Property access `obj[key]` on a decoded JSON object:
the first binding of the key, `none` for `undefined`. -/
def jlookup (key : Str) : List (Str × JVal) → Option JVal
  | [] => none
  | (k, v) :: rest => if k = key then some v else jlookup key rest

/-- JavaScript `Boolean(x)` truthiness of a decoded JSON value. -/
def truthy : JVal → Bool
  | JVal.jnull => false
  | JVal.jbool b => b
  | JVal.jnum n => n ≠ 0
  | JVal.jstr s => s ≠ []
  | JVal.jarr _ => true
  | JVal.jobj _ => true

/-- Outcome of one `fetch` call whose body is consumed with
`response.json()`: either the request (or the abort signal) threw, or a
response arrived with the given `res.ok` flag and, when the body was read,
its decoded JSON value (`none` models `res.json()` itself throwing on a
malformed body). -/
inductive FetchOutcome where
  | throws : FetchOutcome
  | response : Bool → Option JVal → FetchOutcome

/-- Model of `isImageGenRequest` (src/lib/browser-chat-transport.ts lines
301-318).  The whole body is a `try` block whose `catch` returns `false`:
a thrown fetch, a non-OK response, and a body that fails to parse all yield
`false`; otherwise the result is `Boolean(data?.is_image_gen_request)`.  The
prompt and headers only shape the outgoing request, so the function is a
function of the fetch outcome. -/
def isImageGenRequest (o : FetchOutcome) : Bool :=
  match o with
  | FetchOutcome.throws => false
  | FetchOutcome.response ok body =>
    if ok then
      match body with
      | some (JVal.jobj fields) =>
        match jlookup (lit "is_image_gen_request") fields with
        | some v => truthy v
        | none => false
      | _ => false
    else false

/-- The first entry of the image response `data` array, with its three
optional string fields (`url`, `b64_json`, `mime_type`). -/
structure ImgFirst where
  url : Option Str
  b64 : Option Str
  mime : Option Str
deriving DecidableEq

/-- Outcome of the `POST /images/generations` call inside `generateImage`:
the fetch (or `response.json()`) threw with the given error message, or the
response was non-OK (with `status`, `statusText` and the body text when
`response.text()` resolved), or it was OK and `data?.data?.[0]` was either
absent/falsy (`none`) or the given entry. -/
inductive ImageOutcome where
  | throws : Str → ImageOutcome
  | nonOk : Int → Str → Option Str → ImageOutcome
  | ok : Option ImgFirst → ImageOutcome
deriving DecidableEq

/-- The image url and media type produced by a successful `generateImage`. -/
structure ImgResult where
  url : Str
  mediaType : Str
deriving DecidableEq

/-- Model of the inner `generateImage` closure of `createImageStream`
(src/lib/browser-chat-transport.ts lines 333-375): the optional error-sink
call it makes, and either the image result or the message of the error it
throws.  A non-OK response reports to the sink with message
`text || "Image generation failed"` and throws that same message; an OK
response uses the first data entry, preferring a truthy `url` (with
`mime_type ?? "image/png"`), then a truthy `b64_json` wrapped as a data URI,
and otherwise throws `"No usable image returned"`; a missing/falsy first
entry throws `"No image returned"`. -/
def generateImage (authed : Bool) (sub : Option Int) (o : ImageOutcome) :
    Option TransportErrorInfo × Except Str ImgResult :=
  match o with
  | ImageOutcome.throws m => (none, Except.error m)
  | ImageOutcome.nonOk status statusText bodyText =>
    let text := bodyText.getD statusText
    let msg := if text = [] then lit "Image generation failed" else text
    (some { status := status, statusText := statusText, authed := authed,
            sub := sub, message := msg },
     Except.error msg)
  | ImageOutcome.ok none => (none, Except.error (lit "No image returned"))
  | ImageOutcome.ok (some first) =>
    match first.url with
    | some u =>
      if u = [] then
        match first.b64 with
        | some b =>
          if b = [] then (none, Except.error (lit "No usable image returned"))
          else (none, Except.ok { url := lit "data:image/png;base64," ++ b,
                                  mediaType := lit "image/png" })
        | none => (none, Except.error (lit "No usable image returned"))
      else
        (none, Except.ok { url := u,
                           mediaType := first.mime.getD (lit "image/png") })
    | none =>
      match first.b64 with
      | some b =>
        if b = [] then (none, Except.error (lit "No usable image returned"))
        else (none, Except.ok { url := lit "data:image/png;base64," ++ b,
                                mediaType := lit "image/png" })
      | none => (none, Except.error (lit "No usable image returned"))

/-- The markdown image reference emitted on success (line 400). -/
def mdImage (url : Str) : Str :=
  lit "![Generated image](" ++ url ++ lit ")"

/-- The placeholder delta emitted immediately (line 385). -/
def generatingLit : Str := lit "🖼️ Generating image..."

/-- Model of `createImageStream` (src/lib/browser-chat-transport.ts lines
377-423): the full chunk sequence the stream enqueues before closing, plus
the error-sink calls made while producing it.  The `nologo` flag and the
random seed only shape the outgoing request body, so the chunk sequence is a
function of the request outcome. -/
def createImageStream (authed : Bool) (sub : Option Int) (o : ImageOutcome) :
    List Chunk × List (Option TransportErrorInfo) :=
  let g := generateImage authed sub o
  let pre := [Chunk.start, Chunk.startStep, Chunk.textStart textStreamId,
              Chunk.textDelta textStreamId generatingLit]
  match g.2 with
  | Except.ok img =>
    (pre ++ [Chunk.textEnd textStreamId, Chunk.finishStep,
             Chunk.startStep, Chunk.textStart textStreamId,
             Chunk.textDelta textStreamId (mdImage img.url),
             Chunk.textEnd textStreamId, Chunk.finishStep, Chunk.finish],
     g.1.toList.map some)
  | Except.error m =>
    (pre ++ [Chunk.error m, Chunk.textEnd textStreamId, Chunk.finishStep,
             Chunk.finish],
     g.1.toList.map some)

/-- A UI message as the transport reads it: a role string, and the raw
(untyped) `parts` and `content` properties, `none` when absent. -/
structure UIMsg where
  role : Str
  parts : Option JVal
  content : Option JVal

/-- The `parts.map(...)` body of `extractText` (lines 215-222): a part
contributes its `text` field when it is an object whose `type` is `"text"`
and whose `text` is a string, and the empty string otherwise. -/
def partText : JVal → Str
  | JVal.jobj fields =>
    match jlookup (lit "type") fields with
    | some (JVal.jstr t) =>
      if t = lit "text" then
        match jlookup (lit "text") fields with
        | some (JVal.jstr s) => s
        | _ => []
      else []
    | _ => []
  | _ => []

/-- The legacy-`content` mapping body (lines 234-241): string entries pass
through, objects with a string `text` field contribute it, everything else
contributes the empty string. -/
def contentPartText : JVal → Str
  | JVal.jstr s => s
  | JVal.jobj fields =>
    match jlookup (lit "text") fields with
    | some (JVal.jstr s) => s
    | _ => []
  | _ => []

/-- The legacy-`content` fallback of `extractText` (lines 228-242): a flat
string passes through, an array is mapped through `contentPartText` and
joined with `""`, anything else gives the empty string. -/
def legacyContent (m : UIMsg) : Str :=
  match m.content with
  | some (JVal.jstr s) => s
  | some (JVal.jarr parts) => (parts.map contentPartText).flatten
  | _ => []

/-- Model of `extractText` (src/lib/browser-chat-transport.ts lines
210-243): prefer the structured `parts` array — map every part through
`partText`, drop empty strings (`filter(Boolean)`), join with `"\n"`, and
use the result when it is nonempty after trimming; otherwise fall back to
the legacy `content` shape. -/
def extractText (m : UIMsg) : Str :=
  match m.parts with
  | some (JVal.jarr parts) =>
    let text := joinLines ((parts.map partText).filter (fun s => s ≠ []))
    if trim text ≠ [] then text else legacyContent m
  | _ => legacyContent m

/-- An outgoing OpenAI-style chat message. -/
structure OpenAIMsg where
  role : Str
  content : Str
deriving DecidableEq

/-- Model of `toOpenAIMessages` (src/lib/browser-chat-transport.ts lines
189-202): keep only `system` / `user` / `assistant` roles, extract each
kept message's text, then drop messages whose content is empty after
trimming. -/
def toOpenAIMessages (msgs : List UIMsg) : List OpenAIMsg :=
  ((msgs.filter (fun m =>
      m.role = lit "system" ∨ m.role = lit "user" ∨ m.role = lit "assistant")
    ).map (fun m => ({ role := m.role, content := extractText m } : OpenAIMsg))
  ).filter (fun m => trim m.content ≠ [])

/-- Model of `getLastUserText` (lines 204-208): the extracted text of the
last message with role `"user"`, or the empty string. -/
def getLastUserText (msgs : List UIMsg) : Str :=
  match msgs.reverse.find? (fun m => decide (m.role = lit "user")) with
  | some m => extractText m
  | none => []

/-- Hexadecimal digit value, as accepted by percent-escapes. -/
def hexVal (c : Char) : Option Nat :=
  if '0' ≤ c ∧ c ≤ '9' then some (c.toNat - '0'.toNat)
  else if 'a' ≤ c ∧ c ≤ 'f' then some (c.toNat - 'a'.toNat + 10)
  else if 'A' ≤ c ∧ c ≤ 'F' then some (c.toNat - 'A'.toNat + 10)
  else none

/-- Characters `encodeURIComponent` leaves unchanged. -/
def uriUnreserved (c : Char) : Bool :=
  ('0' ≤ c ∧ c ≤ '9') || ('a' ≤ c ∧ c ≤ 'z') || ('A' ≤ c ∧ c ≤ 'Z') ||
    c = '-' || c = '_' || c = '.' || c = '!' || c = '~' || c = '*' ||
    c = '(' || c = ')'

/-- The uppercase hexadecimal digit for a value below 16. -/
def hexDigit (n : Nat) : Char :=
  if n < 10 then Char.ofNat ('0'.toNat + n) else Char.ofNat ('A'.toNat + n - 10)

/-- Model of the `encodeURIComponent` builtin: unreserved characters pass
through, every other character is replaced by the percent-escapes of its
UTF-8 bytes.  Exact for the ASCII keys this repository uses. -/
def encodeURIComponentM (s : Str) : Str :=
  s.flatMap (fun c =>
    if uriUnreserved c then [c]
    else (String.utf8EncodeChar c).flatMap
      (fun b => ['%', hexDigit (b.toNat / 16), hexDigit (b.toNat % 16)]))

/-- Model of the `decodeURIComponent` builtin: percent-escapes are decoded
byte-wise, and a `%` not followed by two hexadecimal digits makes the call
throw `URIError` (modelled as `none`).  The real builtin additionally
rejects byte sequences that are not valid UTF-8 (so it fails on even more
inputs); the model recombines decoded bytes one character per byte, which is
exact on ASCII. -/
def decodeURIComponentM : Str → Option Str
  | [] => some []
  | '%' :: rest =>
    match rest with
    | c1 :: c2 :: rest2 =>
      match hexVal c1, hexVal c2 with
      | some h1, some h2 =>
        match decodeURIComponentM rest2 with
        | some s => some (Char.ofNat (16 * h1 + h2) :: s)
        | none => none
      | _, _ => none
    | _ => none
  | c :: rest =>
    match decodeURIComponentM rest with
    | some s => some (c :: s)
    | none => none

/-- State of the primary store (`localStorage`): undefined in the execution
environment, throwing on access (e.g. private mode), or available with the
given entries (`getItem` returns the first binding or `null`). -/
inductive PrimaryStore where
  | unavailable : PrimaryStore
  | throwing : PrimaryStore
  | available : List (Str × Str) → PrimaryStore

/-- `getItem` lookup in an available store. -/
def storeLookup (key : Str) : List (Str × Str) → Option Str
  | [] => none
  | (k, v) :: rest => if k = key then some v else storeLookup key rest

/-- Model of `getStoredToken` (src/unnamed/part_000 lines 4-23).  The
`localStorage` access sits in a `try` block (unavailability and thrown
accesses are swallowed, and an empty stored value is falsy and ignored); the
cookie fallback splits `document.cookie` on `"; "`, looks for the first part
starting with `encodeURIComponent(key) + "="`, and — outside any `try` —
returns `decodeURIComponent` of the remainder, so a `URIError` thrown there
propagates to the caller (`Except.error ()`).  `doc = none` models
`document` being undefined. -/
def getStoredToken (primary : PrimaryStore) (doc : Option Str) (key : Str) :
    Except Unit (Option Str) :=
  let fromStorage : Option Str :=
    match primary with
    | PrimaryStore.unavailable => none
    | PrimaryStore.throwing => none
    | PrimaryStore.available entries =>
      match storeLookup key entries with
      | some v => if v = [] then none else some v
      | none => none
  match fromStorage with
  | some v => Except.ok (some v)
  | none =>
    match doc with
    | none => Except.ok none
    | some cookie =>
      let target := encodeURIComponentM key ++ ['=']
      match (splitOnSep ';' ' ' cookie).find?
          (fun p => target.isPrefixOf p) with
      | some found =>
        match decodeURIComponentM (found.drop target.length) with
        | some v => Except.ok (some v)
        | none => Except.error ()
      | none => Except.ok none

/-- The `nologo` flag computed at line 86:
`sub !== undefined && sub >= 2`. -/
def subAtLeast2 (sub : Option Int) : Bool :=
  match sub with
  | none => false
  | some s => decide (2 ≤ s)

/-- Outcome of the `POST /chat/completions` fetch: the request itself threw
(network error, with the error message), or a response arrived. -/
inductive ChatFetch where
  | netError : Str → ChatFetch
  | resp : Bool → Int → Str → Option Str → Bool → List Str → ChatFetch

/-- What `sendMessages` produces for its caller: a raised error (carrying
the thrown message — no chunk stream exists in this case), or one of the
two chunk streams, the image one tagged with the `nologo` flag it was
dispatched with. -/
inductive SendResult where
  | raised : Str → SendResult
  | imageStream : Bool → List Chunk → SendResult
  | chatStream : List Chunk → SendResult

/-- A run of `sendMessages`: the sequence of `onError` sink calls, in order,
and the result. -/
structure SendTrace where
  sink : List (Option TransportErrorInfo)
  result : SendResult

/-- Model of `sendMessages` (src/lib/browser-chat-transport.ts lines
65-140).  Header resolution, the auth flag and the subscription tier are
resolved upstream of everything this model observes, so they enter as
parameters (`authed`, `sub`).  The trace starts with the unconditional
`onError(null)` (line 78).  If the last user text is nonempty (string
truthiness) and the intent classifier answers `true`, the call dispatches
to the image stream with `nologo = subAtLeast2 sub`.  Otherwise the chat
completions fetch runs: a network error reports
`status 0 / "Network error"` to the sink and re-raises; a non-OK response
reads the body text (falling back to `statusText` when `text()` rejects)
and reports `status`, `statusText` and
`message = errorText || statusText || "Request failed"`, then throws
`errorText || "Failed to fetch the chat response."`; an OK response with no
body throws without a sink call; an OK response with a body is decoded by
`parseSseToTextStream` and wrapped by `toUiMessageStream`.
`ChatFetch.resp ok status statusText textResult hasBody bodyChunks` carries
the response fields the model reads. -/
def sendMessages (pd : Str → Option Str) (authed : Bool) (sub : Option Int)
    (messages : List UIMsg) (detect : FetchOutcome) (img : ImageOutcome)
    (chat : ChatFetch) : SendTrace :=
  let lastUserText := getLastUserText messages
  if lastUserText ≠ [] ∧ isImageGenRequest detect = true then
    let s := createImageStream authed sub img
    { sink := none :: s.2, result := SendResult.imageStream (subAtLeast2 sub) s.1 }
  else
    match chat with
    | ChatFetch.netError m =>
      { sink := [none, some { status := 0, statusText := lit "Network error",
                              authed := authed, sub := sub, message := m }],
        result := SendResult.raised m }
    | ChatFetch.resp ok status statusText textResult hasBody bodyChunks =>
      if ok then
        if hasBody then
          { sink := [none],
            result := SendResult.chatStream
              (toUiMessageStream (parseSseToTextStream pd bodyChunks []).1) }
        else
          { sink := [none],
            result := SendResult.raised (lit "The response body is empty.") }
      else
        let errorText := textResult.getD statusText
        let msg :=
          if errorText ≠ [] then errorText
          else if statusText ≠ [] then statusText
          else lit "Request failed"
        { sink := [none, some { status := status, statusText := statusText,
                                authed := authed, sub := sub, message := msg }],
          result := SendResult.raised
            (if errorText ≠ [] then errorText
             else lit "Failed to fetch the chat response.") }

/-!
### Specification-side vocabulary for the SSE decoder claims

The claims speak about frames (lists of lines) and the valid deltas of their
data lines.  A line is rendered inside a frame joined by `"\n"`, frames are
rendered joined (and terminated) by `"\n\n"`.
-/

/-- The delta a single SSE line contributes, per the claims: the line trims
to a `data:`-prefixed line whose payload is nonempty, is not the sentinel,
and parses to a nonempty `choices[0].delta.content` string. -/
def lineDelta (pd : Str → Option Str) (line : Str) : Option Str :=
  let trimmed := trim line
  if dataPrefixLit.isPrefixOf trimmed then
    let payload := trim (trimmed.drop 5)
    if payload = [] then none
    else if payload = doneLit then none
    else
      match pd payload with
      | some d => if d = [] then none else some d
      | none => none
  else none

/-- Whether a single SSE line is the termination sentinel `data: [DONE]`. -/
def lineIsDone (line : Str) : Bool :=
  let trimmed := trim line
  if dataPrefixLit.isPrefixOf trimmed then
    decide (trim (trimmed.drop 5) = doneLit)
  else false

/-- All valid deltas of a frame, in line order. -/
def frameDeltas (pd : Str → Option Str) (f : List Str) : List Str :=
  f.filterMap (lineDelta pd)

/-- Whether a frame contains the termination sentinel on some data line. -/
def frameDone (f : List Str) : Bool := f.any lineIsDone

/-- A well-formed SSE line: nonempty and free of `'\n'` (exactly the lines
the decoder itself can ever slice out of a frame). -/
def wfLine (l : Str) : Prop := l ≠ [] ∧ '\n' ∉ l

/-- A well-formed frame: every line well-formed (a frame may be empty). -/
def wfFrame (f : List Str) : Prop := ∀ l ∈ f, wfLine l

/-- A well-formed frame sequence. -/
def wfFrames (fs : List (List Str)) : Prop := ∀ f ∈ fs, wfFrame f


/-- Render a frame sequence: every frame followed by the `"\n\n"`
delimiter. -/
def renderFrames (fs : List (List Str)) : Str :=
  (fs.map (fun f => joinLines f ++ ['\n', '\n'])).flatten

/-- Whether every text chunk in a UI chunk sequence carries the constant
text id `"text-1"`. -/
def textIdsOk (cs : List Chunk) : Bool :=
  cs.all (fun c =>
    match c with
    | Chunk.textStart i => decide (i = textStreamId)
    | Chunk.textDelta i _ => decide (i = textStreamId)
    | Chunk.textEnd i => decide (i = textStreamId)
    | _ => true)

/-- Bracketing check for the single text id: every `text-delta` happens
between a `text-start` and the matching `text-end`, starts do not nest, and
the sequence ends with the text closed.  The Boolean argument is whether a
text is currently open. -/
def wellBracketed : List Chunk → Bool → Bool
  | [], isOpen => !isOpen
  | Chunk.textStart _ :: rest, isOpen => !isOpen && wellBracketed rest true
  | Chunk.textDelta _ _ :: rest, isOpen => isOpen && wellBracketed rest isOpen
  | Chunk.textEnd _ :: rest, isOpen => isOpen && wellBracketed rest false
  | _ :: rest, isOpen => wellBracketed rest isOpen

/-- The error message of a non-OK chat completions response as claim C4
(amended) states it: the response body text; the status line text when the
body is unreadable or empty; the constant `"Request failed"` when the
status line text is also empty. -/
def nonOkMessage (statusText : Str) (textResult : Option Str) : Str :=
  match textResult with
  | some t => if t = [] then (if statusText = [] then lit "Request failed"
                              else statusText)
              else t
  | none => if statusText = [] then lit "Request failed" else statusText

/-- The classification flag of a decoded detection body:
`data?.is_image_gen_request`. -/
def flagOfBody (body : Option JVal) : Option JVal :=
  match body with
  | some (JVal.jobj fields) => jlookup (lit "is_image_gen_request") fields
  | _ => none

/-- The typing assumption claim C5 speaks under: the body's flag field, when
present, is a JSON boolean (the endpoint's declared
`is_image_gen_request?: boolean` contract).  Non-OK and thrown outcomes
carry no assumption. -/
def flagBoolTyped (o : FetchOutcome) : Prop :=
  match o with
  | FetchOutcome.response true body =>
    ∀ v, flagOfBody body = some v → ∃ b, v = JVal.jbool b
  | _ => True

/-- The classifier as claim C5 states it: `true` exactly when the response
has a successful HTTP status and the decoded body's flag is explicitly the
boolean `true`. -/
def claimClassifier (o : FetchOutcome) : Bool :=
  match o with
  | FetchOutcome.response true body =>
    match flagOfBody body with
    | some (JVal.jbool true) => true
    | _ => false
  | _ => false

/-- The text of a part tagged as text, per claim C7's words: the part is an
object whose `type` is `"text"` and whose `text` is a string (possibly
empty). -/
def partTextTagged (p : JVal) : Option Str :=
  match p with
  | JVal.jobj fields =>
    match jlookup (lit "type") fields with
    | some (JVal.jstr t) =>
      if t = lit "text" then
        match jlookup (lit "text") fields with
        | some (JVal.jstr s) => some s
        | _ => none
      else none
    | _ => none
  | _ => none

/-- Text extraction exactly as claim C7 states it: concatenate ALL parts
tagged as text, joined by newline, falling back to the legacy content shape
when there is no structured parts array or no text-tagged part. -/
def claimExtractText (m : UIMsg) : Str :=
  match m.parts with
  | some (JVal.jarr parts) =>
    let texts := parts.filterMap partTextTagged
    if texts = [] then legacyContent m else joinLines texts
  | _ => legacyContent m

/-- The message conversion pipeline as claim C7 states it. -/
def claimToOpenAIMessages (msgs : List UIMsg) : List OpenAIMsg :=
  ((msgs.filter (fun m =>
      m.role = lit "system" ∨ m.role = lit "user" ∨ m.role = lit "assistant")
    ).map (fun m =>
      ({ role := m.role, content := claimExtractText m } : OpenAIMsg))
  ).filter (fun m => trim m.content ≠ [])

/-- Text extraction as claim C7 amended: concatenate all parts tagged as
text whose text is nonempty, joined by newline, falling back to the legacy
content shape when the parts-derived text is empty after trimming. -/
def amendedExtractText (m : UIMsg) : Str :=
  match m.parts with
  | some (JVal.jarr parts) =>
    let text := joinLines
      ((parts.filterMap partTextTagged).filter (fun s => s ≠ []))
    if trim text = [] then legacyContent m else text
  | _ => legacyContent m

/-- The message conversion pipeline as claim C7 amended. -/
def amendedToOpenAIMessages (msgs : List UIMsg) : List OpenAIMsg :=
  ((msgs.filter (fun m =>
      m.role = lit "system" ∨ m.role = lit "user" ∨ m.role = lit "assistant")
    ).map (fun m =>
      ({ role := m.role, content := amendedExtractText m } : OpenAIMsg))
  ).filter (fun m => trim m.content ≠ [])

/-- A structured text part, for concrete messages. -/
def textPartJ (s : String) : JVal :=
  JVal.jobj [(lit "type", JVal.jstr (lit "text")), (lit "text", JVal.jstr (lit s))]

/-- Concrete message whose parts carry an empty-text text part. -/
def msgC7 : UIMsg :=
  { role := lit "user",
    parts := some (JVal.jarr [textPartJ "a", textPartJ "", textPartJ "b"]),
    content := none }

/-- The scenario message `\x7brole:"user", parts:[\x7btype:"text",
text:"draw a cat"\x7d]\x7d`. -/
def msgDrawCat : UIMsg :=
  { role := lit "user",
    parts := some (JVal.jarr [textPartJ "draw a cat"]),
    content := none }

/-- A detection outcome whose body is `\x7bis_image_gen_request: true\x7d`. -/
def detectTrueSample : FetchOutcome :=
  FetchOutcome.response true
    (some (JVal.jobj [(lit "is_image_gen_request", JVal.jbool true)]))

/-- A sample payload parser standing in for JSON.parse plus the
`choices[0].delta.content` access, used by the witnesses. -/
def pdSample : Str → Option Str := fun s =>
  if s = lit "payload-A" then some (lit "alpha")
  else if s = lit "payload-B" then some (lit "beta")
  else none

/-!
### Lemmas about `splitOnSep` and `splitFirstSep`
-/

theorem splitOnSep_ne_nil (a b : Char) : ∀ s, splitOnSep a b s ≠ []
  | [] => by simp [splitOnSep]
  | [c] => by simp [splitOnSep]
  | c1 :: c2 :: rest => by
    simp only [splitOnSep]
    split
    · simp
    · cases h : splitOnSep a b (c2 :: rest) with
      | nil => simp
      | cons p ps => simp

/-- When the separator does not occur, the split is the whole string:
this is the exit case of the `indexOf` loop. -/
theorem splitOnSep_of_splitFirstSep_none (a b : Char) :
    ∀ s, splitFirstSep a b s = none → splitOnSep a b s = [s]
  | [], _ => rfl
  | [c], _ => rfl
  | c1 :: c2 :: rest, h => by
    simp only [splitFirstSep] at h
    simp only [splitOnSep]
    split
    · rename_i hc
      rw [if_pos hc] at h
      exact absurd h (by simp)
    · rename_i hc
      rw [if_neg hc] at h
      have hrec : splitFirstSep a b (c2 :: rest) = none := by
        cases hr : splitFirstSep a b (c2 :: rest) with
        | none => rfl
        | some pq =>
          rw [hr] at h
          obtain ⟨p, q⟩ := pq
          exact absurd h (by simp)
      rw [splitOnSep_of_splitFirstSep_none a b (c2 :: rest) hrec]

/-- When the separator occurs, the split is the leftmost slice followed by
the split of the rest: this is the step case of the `indexOf` loop. -/
theorem splitOnSep_of_splitFirstSep_some (a b : Char) :
    ∀ s p q, splitFirstSep a b s = some (p, q) →
      splitOnSep a b s = p :: splitOnSep a b q
  | [], p, q, h => by simp [splitFirstSep] at h
  | [c], p, q, h => by simp [splitFirstSep] at h
  | c1 :: c2 :: rest, p, q, h => by
    simp only [splitFirstSep] at h
    simp only [splitOnSep]
    split
    · rename_i hc
      rw [if_pos hc] at h
      simp only [Option.some.injEq, Prod.mk.injEq] at h
      rw [← h.1, ← h.2]
    · rename_i hc
      rw [if_neg hc] at h
      cases hr : splitFirstSep a b (c2 :: rest) with
      | none => rw [hr] at h; exact absurd h (by simp)
      | some pq =>
        obtain ⟨p', q'⟩ := pq
        rw [hr] at h
        simp only [Option.some.injEq, Prod.mk.injEq] at h
        rw [splitOnSep_of_splitFirstSep_some a b (c2 :: rest) p' q' hr]
        rw [← h.1, ← h.2]

theorem sepJoin_cons_of_ne_nil (a b : Char) (p : Str) (ps : List Str)
    (h : ps ≠ []) : sepJoin a b (p :: ps) = p ++ a :: b :: sepJoin a b ps := by
  cases ps with
  | nil => exact absurd rfl h
  | cons q qs => rfl

theorem sepJoin_cons_cons (a b : Char) (c : Char) (p : Str) (ps : List Str) :
    sepJoin a b ((c :: p) :: ps) = c :: sepJoin a b (p :: ps) := by
  cases ps with
  | nil => rfl
  | cons q qs => rfl

/-- Rejoining the split segments restores the original buffer. -/
theorem sepJoin_splitOnSep (a b : Char) :
    ∀ s, sepJoin a b (splitOnSep a b s) = s
  | [] => rfl
  | [c] => rfl
  | c1 :: c2 :: rest => by
    simp only [splitOnSep]
    split
    · rename_i hc
      have ih := sepJoin_splitOnSep a b rest
      rw [sepJoin_cons_of_ne_nil a b [] _ (splitOnSep_ne_nil a b rest)]
      rw [ih, List.nil_append, hc.1, hc.2]
    · rename_i hc
      have ih := sepJoin_splitOnSep a b (c2 :: rest)
      cases hr : splitOnSep a b (c2 :: rest) with
      | nil => exact absurd hr (splitOnSep_ne_nil a b (c2 :: rest))
      | cons p ps =>
        rw [hr] at ih
        rw [sepJoin_cons_cons, ih]

/-- Prepending text free of the separator's first character merges into the
head segment of the split. -/
theorem splitOnSep_prepend (a b : Char) :
    ∀ (l s : Str) (p : Str) (ps : List Str), (∀ c ∈ l, c ≠ a) →
      splitOnSep a b s = p :: ps →
      splitOnSep a b (l ++ s) = (l ++ p) :: ps
  | [], s, p, ps, _, hs => by simpa using hs
  | c :: l', s, p, ps, hl, hs => by
    have hc : c ≠ a := hl c (by simp)
    have ih := splitOnSep_prepend a b l' s p ps
      (fun d hd => hl d (by simp [hd])) hs
    cases hrest : l' ++ s with
    | nil =>
      have hs' : s = [] := by
        cases l' <;> simp_all
      have hl' : l' = [] := by
        cases l' <;> simp_all
      subst hs'; subst hl'
      simpa [splitOnSep] using hs
    | cons d rest' =>
      show splitOnSep a b (c :: (l' ++ s)) = ((c :: l') ++ p) :: ps
      rw [hrest]
      simp only [splitOnSep]
      rw [if_neg (by simp [hc])]
      rw [hrest] at ih
      rw [ih]
      simp

/-- A segment-free, not-`a`-terminated prefix followed by an explicit
separator splits off exactly that prefix. -/
theorem splitOnSep_sep_append (a b : Char) :
    ∀ (s r : Str), splitOnSep a b s = [s] →
      (s = [] ∨ s.getLast? ≠ some a) →
      splitOnSep a b (s ++ a :: b :: r) = s :: splitOnSep a b r
  | [], r, _, _ => by
    show splitOnSep a b (a :: b :: r) = [] :: splitOnSep a b r
    simp [splitOnSep]
  | [c], r, _, hlast => by
    have hc : c ≠ a := by
      rcases hlast with h | h
      · simp at h
      · simpa using h
    show splitOnSep a b (c :: a :: b :: r) = [c] :: splitOnSep a b r
    simp [splitOnSep, hc]
  | c1 :: c2 :: s', r, hsplit, hlast => by
    have hcc : ¬(c1 = a ∧ c2 = b) := by
      intro hcc
      rw [show splitOnSep a b (c1 :: c2 :: s') = [] :: splitOnSep a b s' by
        simp only [splitOnSep]; rw [if_pos hcc]] at hsplit
      cases hr : splitOnSep a b s' with
      | nil => exact absurd hr (splitOnSep_ne_nil a b s')
      | cons p ps => rw [hr] at hsplit; simp at hsplit
    have hins : splitOnSep a b (c2 :: s') = [c2 :: s'] := by
      rw [show splitOnSep a b (c1 :: c2 :: s') =
          (match splitOnSep a b (c2 :: s') with
           | [] => [[c1]]
           | p :: ps => (c1 :: p) :: ps) by
        simp only [splitOnSep]; rw [if_neg hcc]] at hsplit
      cases hr : splitOnSep a b (c2 :: s') with
      | nil => exact absurd hr (splitOnSep_ne_nil a b (c2 :: s'))
      | cons p ps =>
        rw [hr] at hsplit
        simp at hsplit
        rw [hsplit.1, hsplit.2]
    have ih := splitOnSep_sep_append a b (c2 :: s') r hins
      (by
        rcases hlast with h | h
        · simp at h
        · right
          simpa [List.getLast?_cons_cons] using h)
    show splitOnSep a b (c1 :: ((c2 :: s') ++ a :: b :: r)) =
      (c1 :: c2 :: s') :: splitOnSep a b r
    have hx : (c2 :: s') ++ a :: b :: r = c2 :: (s' ++ a :: b :: r) := by simp
    rw [hx]
    simp only [splitOnSep]
    rw [if_neg hcc]
    rw [← hx, ih]

/-!
### Lemmas about `splitLines` and per-frame extraction
-/

theorem splitLines_no_nl : ∀ l : Str, '\n' ∉ l → splitLines l = [l]
  | [], _ => rfl
  | c :: l', h => by
    have hc : c ≠ '\n' := by intro hc; exact h (by simp [hc])
    have ih := splitLines_no_nl l' (fun hl => h (by simp [hl]))
    simp only [splitLines]
    rw [if_neg hc, ih]

theorem splitLines_append_nl : ∀ l s : Str, '\n' ∉ l →
    splitLines (l ++ '\n' :: s) = l :: splitLines s
  | [], s, _ => by simp [splitLines]
  | c :: l', s, h => by
    have hc : c ≠ '\n' := by intro hc; exact h (by simp [hc])
    have ih := splitLines_append_nl l' s (fun hl => h (by simp [hl]))
    show splitLines (c :: (l' ++ '\n' :: s)) = (c :: l') :: splitLines s
    simp only [splitLines]
    rw [if_neg hc, ih]

theorem splitLines_joinLines : ∀ f : List Str, (∀ l ∈ f, '\n' ∉ l) →
    f ≠ [] → splitLines (joinLines f) = f
  | [], _, hne => absurd rfl hne
  | [l], hwf, _ => by
    show splitLines l = [l]
    exact splitLines_no_nl l (hwf l (by simp))
  | l :: l2 :: f', hwf, _ => by
    show splitLines (l ++ '\n' :: joinLines (l2 :: f')) = l :: l2 :: f'
    rw [splitLines_append_nl l _ (hwf l (by simp))]
    rw [splitLines_joinLines (l2 :: f') (fun x hx => hwf x (by simp [hx]))
      (by simp)]

/-- The line loop is exactly `filterMap lineDelta` paired with
`any lineIsDone`. -/
theorem extractLoop_eq (pd : Str → Option Str) :
    ∀ lines, extractLoop pd lines =
      (lines.filterMap (lineDelta pd), lines.any lineIsDone)
  | [] => rfl
  | line :: rest => by
    have ih := extractLoop_eq pd rest
    simp only [extractLoop, List.filterMap_cons, List.any_cons, ih]
    simp only [lineDelta, lineIsDone]
    by_cases h1 : dataPrefixLit.isPrefixOf (trim line) = true
    · simp only [if_pos h1]
      by_cases h2 : trim ((trim line).drop 5) = []
      · have hnd : ¬trim ((trim line).drop 5) = doneLit := by rw [h2]; decide
        simp [if_pos h2, h2, hnd, show ¬doneLit = ([] : Str) by decide]
      · simp only [if_neg h2]
        by_cases h3 : trim ((trim line).drop 5) = doneLit
        · simp [if_pos h3, h3]
        · simp only [if_neg h3, h3]
          cases hp : pd (trim ((trim line).drop 5)) with
          | none => simp
          | some d =>
            by_cases h4 : d = []
            · simp [if_pos h4]
            · simp [if_neg h4]
    · simp [if_neg h1, h1]

/-- Extraction of a rendered well-formed frame gives exactly its valid
deltas and its sentinel flag. -/
theorem extract_joinLines (pd : Str → Option Str) (f : List Str)
    (hwf : wfFrame f) :
    extractTextChunks pd (joinLines f) = (frameDeltas pd f, frameDone f) := by
  cases f with
  | nil => rfl
  | cons l f' =>
    unfold extractTextChunks frameDeltas frameDone
    rw [splitLines_joinLines (l :: f') (fun x hx => (hwf x hx).2) (by simp)]
    exact extractLoop_eq pd (l :: f')

/-- A rendered nonempty well-formed frame starts with a character other
than `'\n'`. -/
theorem joinLines_head (f : List Str) (hwf : wfFrame f) (hne : f ≠ []) :
    ∃ c t, joinLines f = c :: t ∧ c ≠ '\n' := by
  cases f with
  | nil => exact absurd rfl hne
  | cons l f' =>
    obtain ⟨c, t, hl⟩ : ∃ c t, l = c :: t := by
      cases l with
      | nil => exact absurd rfl (hwf [] (by simp)).1
      | cons c t => exact ⟨c, t, rfl⟩
    have hc : c ≠ '\n' := by
      intro hc
      exact (hwf l (by simp)).2 (by rw [hl, hc]; simp)
    cases f' with
    | nil => exact ⟨c, t, by rw [show joinLines [l] = l from rfl, hl], hc⟩
    | cons l2 f'' =>
      exact ⟨c, t ++ '\n' :: joinLines (l2 :: f''),
        by rw [show joinLines (l :: l2 :: f'') = l ++ '\n' :: joinLines (l2 :: f'')
          from rfl, hl]; simp, hc⟩

/-- A rendered nonempty well-formed frame is a nonempty string. -/
theorem joinLines_ne_nil (f : List Str) (hwf : wfFrame f) (hne : f ≠ []) :
    joinLines f ≠ [] := by
  obtain ⟨c, t, heq, -⟩ := joinLines_head f hwf hne
  rw [heq]
  simp

/-- A list whose last element is `x` contains `x`. -/
theorem mem_of_getLast?_eq {α : Type} {l : List α} {x : α}
    (h : l.getLast? = some x) : x ∈ l := by
  obtain ⟨hne, hx⟩ := List.mem_getLast?_eq_getLast (l := l) (x := x)
    (by rw [Option.mem_def, h])
  rw [hx]
  exact List.getLast_mem hne

/-- A rendered well-formed frame is empty or does not end in `'\n'`. -/
theorem joinLines_getLast (f : List Str) (hwf : wfFrame f) :
    joinLines f = [] ∨ (joinLines f).getLast? ≠ some '\n' := by
  induction f with
  | nil => exact Or.inl rfl
  | cons l f' ih =>
    right
    cases f' with
    | nil =>
      show l.getLast? ≠ some '\n'
      intro hco
      exact (hwf l (by simp)).2 (mem_of_getLast?_eq hco)
    | cons l2 f'' =>
      show (l ++ '\n' :: joinLines (l2 :: f'')).getLast? ≠ some '\n'
      rw [List.getLast?_append_cons]
      have hj : joinLines (l2 :: f'') ≠ [] :=
        joinLines_ne_nil (l2 :: f'') (fun x hx => hwf x (by simp [hx])) (by simp)
      obtain ⟨x, j', hxj⟩ : ∃ x j', joinLines (l2 :: f'') = x :: j' := by
        cases hj' : joinLines (l2 :: f'') with
        | nil => exact absurd hj' hj
        | cons x j' => exact ⟨x, j', rfl⟩
      rw [hxj, List.getLast?_cons_cons]
      have ihr := ih (fun x hx => hwf x (by simp [hx]))
      rcases ihr with h | h
      · exact absurd h hj
      · rw [hxj] at h
        exact h

/-- A rendered well-formed frame contains no `"\n\n"` boundary. -/
theorem splitOnSep_joinLines : ∀ f : List Str, wfFrame f →
    splitOnSep '\n' '\n' (joinLines f) = [joinLines f]
  | [], _ => rfl
  | [l], hwf => by
    show splitOnSep '\n' '\n' l = [l]
    have := splitOnSep_prepend '\n' '\n' l [] [] []
      (fun c hc hce => (hwf l (by simp)).2 (by rw [← hce]; exact hc)) rfl
    simpa using this
  | l :: l2 :: f'', hwf => by
    have hwf' : wfFrame (l2 :: f'') := fun x hx => hwf x (by simp [hx])
    have ih := splitOnSep_joinLines (l2 :: f'') hwf'
    obtain ⟨c, t, hct, hc⟩ := joinLines_head (l2 :: f'') hwf' (by simp)
    have hinner : splitOnSep '\n' '\n' ('\n' :: joinLines (l2 :: f'')) =
        [('\n' :: joinLines (l2 :: f''))] := by
      rw [hct]
      show splitOnSep '\n' '\n' ('\n' :: c :: t) = [('\n' :: c :: t)]
      simp only [splitOnSep]
      rw [if_neg (by simp [hc])]
      rw [hct] at ih
      rw [ih]
    show splitOnSep '\n' '\n' (l ++ '\n' :: joinLines (l2 :: f'')) =
      [l ++ '\n' :: joinLines (l2 :: f'')]
    have := splitOnSep_prepend '\n' '\n' l ('\n' :: joinLines (l2 :: f''))
      ('\n' :: joinLines (l2 :: f'')) []
      (fun d hd hde => (hwf l (by simp)).2 (by rw [← hde]; exact hd)) hinner
    exact this

/-- Splitting a rendered well-formed frame sequence followed by a
boundary-free tail recovers the frames and the tail. -/
theorem splitOnSep_renderFrames : ∀ fs : List (List Str), ∀ tail : Str,
    wfFrames fs → splitOnSep '\n' '\n' tail = [tail] →
    splitOnSep '\n' '\n' (renderFrames fs ++ tail) =
      fs.map joinLines ++ [tail]
  | [], tail, _, htail => by simpa [renderFrames] using htail
  | f :: fs', tail, hwf, htail => by
    have hwff : wfFrame f := hwf f (by simp)
    have harr : renderFrames (f :: fs') ++ tail =
        joinLines f ++ '\n' :: '\n' :: (renderFrames fs' ++ tail) := by
      simp [renderFrames]
    rw [harr]
    rw [splitOnSep_sep_append '\n' '\n' (joinLines f) (renderFrames fs' ++ tail)
      (splitOnSep_joinLines f hwff) (joinLines_getLast f hwff)]
    rw [splitOnSep_renderFrames fs' tail (fun x hx => hwf x (by simp [hx])) htail]
    simp

/-- The leftmost boundary decomposes the string. -/
theorem splitFirstSep_eq (a b : Char) : ∀ s p q,
    splitFirstSep a b s = some (p, q) → s = p ++ a :: b :: q
  | [], p, q, h => by simp [splitFirstSep] at h
  | [c], p, q, h => by simp [splitFirstSep] at h
  | c1 :: c2 :: rest, p, q, h => by
    simp only [splitFirstSep] at h
    by_cases hc : c1 = a ∧ c2 = b
    · rw [if_pos hc] at h
      simp only [Option.some.injEq, Prod.mk.injEq] at h
      rw [← h.1, ← h.2, hc.1, hc.2]
      simp
    · rw [if_neg hc] at h
      cases hr : splitFirstSep a b (c2 :: rest) with
      | none => rw [hr] at h; simp at h
      | some pq =>
        obtain ⟨p', q'⟩ := pq
        rw [hr] at h
        simp only [Option.some.injEq, Prod.mk.injEq] at h
        have := splitFirstSep_eq a b (c2 :: rest) p' q' hr
        rw [← h.1, ← h.2]
        simp [this]

/-- The text after the leftmost boundary is shorter than the string. -/
theorem splitFirstSep_length (a b : Char) (s p q : Str)
    (h : splitFirstSep a b s = some (p, q)) : q.length < s.length := by
  rw [splitFirstSep_eq a b s p q h]
  simp
  omega

/-- Appending text does not move the leftmost boundary. -/
theorem splitFirstSep_append (a b : Char) (y : Str) : ∀ s p q,
    splitFirstSep a b s = some (p, q) →
    splitFirstSep a b (s ++ y) = some (p, q ++ y)
  | [], p, q, h => by simp [splitFirstSep] at h
  | [c], p, q, h => by simp [splitFirstSep] at h
  | c1 :: c2 :: rest, p, q, h => by
    simp only [splitFirstSep] at h
    show splitFirstSep a b (c1 :: c2 :: (rest ++ y)) = some (p, q ++ y)
    simp only [splitFirstSep]
    by_cases hc : c1 = a ∧ c2 = b
    · rw [if_pos hc] at h
      rw [if_pos hc]
      simp only [Option.some.injEq, Prod.mk.injEq] at h
      rw [← h.1, ← h.2]
    · rw [if_neg hc] at h
      rw [if_neg hc]
      cases hr : splitFirstSep a b (c2 :: rest) with
      | none => rw [hr] at h; simp at h
      | some pq =>
        obtain ⟨p', q'⟩ := pq
        rw [hr] at h
        simp only [Option.some.injEq, Prod.mk.injEq] at h
        have ih := splitFirstSep_append a b y (c2 :: rest) p' q' hr
        rw [show (c2 :: rest) ++ y = c2 :: (rest ++ y) from rfl] at ih
        rw [ih, ← h.1, ← h.2]

/-- Splitting `x ++ y` splits off the complete segments of `x` and re-splits
the remainder of `x` glued to `y` (the buffer-accumulation step of the
decoder). -/
theorem splitOnSep_append (a b : Char) (y : Str) : ∀ x : Str,
    splitOnSep a b (x ++ y) =
      (splitOnSep a b x).dropLast ++
        splitOnSep a b ((splitOnSep a b x).getLastD [] ++ y)
  | x => by
    cases hsf : splitFirstSep a b x with
    | none =>
      rw [splitOnSep_of_splitFirstSep_none a b x hsf]
      simp
    | some pq =>
      obtain ⟨p, q⟩ := pq
      have hx := splitOnSep_of_splitFirstSep_some a b x p q hsf
      have hxy := splitOnSep_of_splitFirstSep_some a b (x ++ y) p (q ++ y)
        (splitFirstSep_append a b y x p q hsf)
      have ih := splitOnSep_append a b y q
      rw [hxy, ih, hx]
      have hq := splitOnSep_ne_nil a b q
      cases hsq : splitOnSep a b q with
      | nil => exact absurd hsq hq
      | cons r rs =>
        simp [List.getLastD_cons]
termination_by x => x.length
decreasing_by exact splitFirstSep_length a b x p q hsf

theorem drainLoop_cons (pd : Str → Option Str) (f p : Str) (ps : List Str) :
    drainLoop pd (f :: p :: ps) =
      (let e := extractTextChunks pd f
       if e.2 then (e.1, true, sepJoin '\n' '\n' (p :: ps))
       else
         let out := drainLoop pd (p :: ps)
         (e.1 ++ out.1, out.2.1, out.2.2)) := rfl

/-- Without a sentinel, the loop leaves the last segment as the buffer
remainder. -/
theorem drainLoop_rest (pd : Str → Option Str) : ∀ ps ds r,
    drainLoop pd ps = (ds, false, r) → r = ps.getLastD []
  | [], ds, r, h => by
    simp only [drainLoop, Prod.mk.injEq] at h
    rw [← h.2.2]
    rfl
  | [rest], ds, r, h => by
    simp only [drainLoop, Prod.mk.injEq] at h
    rw [← h.2.2]
    rfl
  | f :: p :: ps', ds, r, h => by
    rw [drainLoop_cons] at h
    simp only at h
    by_cases he : (extractTextChunks pd f).2 = true
    · rw [if_pos he] at h
      simp at h
    · rw [if_neg he] at h
      simp only [Prod.mk.injEq] at h
      have := drainLoop_rest pd (p :: ps') (drainLoop pd (p :: ps')).1 r
        (by
          have h21 : (drainLoop pd (p :: ps')).2.1 = false := by
            rw [h.2.1]
          have h22 : (drainLoop pd (p :: ps')).2.2 = r := h.2.2
          calc drainLoop pd (p :: ps')
              = ((drainLoop pd (p :: ps')).1, (drainLoop pd (p :: ps')).2.1,
                  (drainLoop pd (p :: ps')).2.2) := rfl
            _ = ((drainLoop pd (p :: ps')).1, false, r) := by rw [h21, h22])
      rw [this]
      rfl

/-- Extending the segment list past a loop run that saw no sentinel
continues the run on the extension. -/
theorem drainLoop_append (pd : Str → Option Str) : ∀ ps qs ds r,
    qs ≠ [] → drainLoop pd ps = (ds, false, r) →
    drainLoop pd (ps.dropLast ++ qs) =
      (ds ++ (drainLoop pd qs).1, (drainLoop pd qs).2.1,
        (drainLoop pd qs).2.2)
  | [], qs, ds, r, _, h => by
    simp only [drainLoop, Prod.mk.injEq] at h
    rw [← h.1]
    simp
  | [rest], qs, ds, r, _, h => by
    simp only [drainLoop, Prod.mk.injEq] at h
    rw [← h.1]
    simp
  | f :: p :: ps', qs, ds, r, hq, h => by
    rw [drainLoop_cons] at h
    simp only at h
    by_cases he : (extractTextChunks pd f).2 = true
    · rw [if_pos he] at h
      simp at h
    · rw [if_neg he] at h
      simp only [Prod.mk.injEq] at h
      have hloop : drainLoop pd (p :: ps') =
          ((drainLoop pd (p :: ps')).1, false, (drainLoop pd (p :: ps')).2.2) := by
        calc drainLoop pd (p :: ps')
            = ((drainLoop pd (p :: ps')).1, (drainLoop pd (p :: ps')).2.1,
                (drainLoop pd (p :: ps')).2.2) := rfl
          _ = _ := by rw [h.2.1]
      have ih := drainLoop_append pd (p :: ps') qs (drainLoop pd (p :: ps')).1
        (drainLoop pd (p :: ps')).2.2 hq hloop
      have hshape : (f :: p :: ps').dropLast ++ qs =
          f :: ((p :: ps').dropLast ++ qs) := by
        simp
      rw [hshape]
      obtain ⟨q0, qs', hqs⟩ : ∃ q0 qs', (p :: ps').dropLast ++ qs = q0 :: qs' := by
        cases hc : (p :: ps').dropLast ++ qs with
        | nil =>
          cases qs with
          | nil => exact absurd rfl hq
          | cons x xs => simp at hc
        | cons q0 qs' => exact ⟨q0, qs', rfl⟩
      rw [hqs]
      rw [drainLoop_cons]
      simp only
      rw [if_neg he]
      rw [← hqs, ih]
      simp [← h.1, List.append_assoc]

/-- Extending the segment list past a loop run that saw the sentinel does
not change the emitted deltas or the sentinel flag. -/
theorem drainLoop_append_done (pd : Str → Option Str) : ∀ ps qs ds r,
    qs ≠ [] → drainLoop pd ps = (ds, true, r) →
    (drainLoop pd (ps.dropLast ++ qs)).1 = ds ∧
      (drainLoop pd (ps.dropLast ++ qs)).2.1 = true
  | [], qs, ds, r, _, h => by
    simp only [drainLoop, Prod.mk.injEq] at h
    exact absurd h.2.1 (by simp)
  | [rest], qs, ds, r, _, h => by
    simp only [drainLoop, Prod.mk.injEq] at h
    exact absurd h.2.1 (by simp)
  | f :: p :: ps', qs, ds, r, hq, h => by
    rw [drainLoop_cons] at h
    simp only at h
    have hshape : (f :: p :: ps').dropLast ++ qs =
        f :: ((p :: ps').dropLast ++ qs) := by simp
    obtain ⟨q0, qs', hqs⟩ : ∃ q0 qs', (p :: ps').dropLast ++ qs = q0 :: qs' := by
      cases hc : (p :: ps').dropLast ++ qs with
      | nil =>
        cases qs with
        | nil => exact absurd rfl hq
        | cons x xs => simp at hc
      | cons q0 qs' => exact ⟨q0, qs', rfl⟩
    by_cases he : (extractTextChunks pd f).2 = true
    · rw [if_pos he] at h
      simp only [Prod.mk.injEq] at h
      rw [hshape, hqs, drainLoop_cons]
      simp only
      rw [if_pos he]
      exact ⟨h.1, rfl⟩
    · rw [if_neg he] at h
      simp only [Prod.mk.injEq] at h
      have hloop : drainLoop pd (p :: ps') =
          ((drainLoop pd (p :: ps')).1, true, (drainLoop pd (p :: ps')).2.2) := by
        calc drainLoop pd (p :: ps')
            = ((drainLoop pd (p :: ps')).1, (drainLoop pd (p :: ps')).2.1,
                (drainLoop pd (p :: ps')).2.2) := rfl
          _ = _ := by rw [h.2.1]
      have ih := drainLoop_append_done pd (p :: ps') qs
        (drainLoop pd (p :: ps')).1 (drainLoop pd (p :: ps')).2.2 hq hloop
      rw [hshape, hqs, drainLoop_cons]
      simp only
      rw [if_neg he]
      rw [← hqs]
      refine ⟨?_, ih.2⟩
      rw [ih.1, ← h.1]

/-- Feeding more text after a sentinel-free drain continues from the
remainder. -/
theorem drainFrames_append (pd : Str → Option Str) (x y : Str) (ds : List Str)
    (r : Str) (h : drainFrames pd x = (ds, false, r)) :
    drainFrames pd (x ++ y) =
      (ds ++ (drainFrames pd (r ++ y)).1, (drainFrames pd (r ++ y)).2.1,
        (drainFrames pd (r ++ y)).2.2) := by
  have hrest : r = (splitOnSep '\n' '\n' x).getLastD [] :=
    drainLoop_rest pd (splitOnSep '\n' '\n' x) ds r h
  show drainLoop pd (splitOnSep '\n' '\n' (x ++ y)) = _
  rw [splitOnSep_append '\n' '\n' y x, ← hrest]
  exact drainLoop_append pd (splitOnSep '\n' '\n' x)
    (splitOnSep '\n' '\n' (r ++ y)) ds r
    (splitOnSep_ne_nil '\n' '\n' (r ++ y)) h

/-- Feeding more text after a drain that saw the sentinel changes neither
the emitted deltas nor the sentinel flag. -/
theorem drainFrames_append_done (pd : Str → Option Str) (x y : Str)
    (ds : List Str) (r : Str) (h : drainFrames pd x = (ds, true, r)) :
    (drainFrames pd (x ++ y)).1 = ds ∧ (drainFrames pd (x ++ y)).2.1 = true := by
  have key := drainLoop_append_done pd (splitOnSep '\n' '\n' x)
    (splitOnSep '\n' '\n' ((splitOnSep '\n' '\n' x).getLastD [] ++ y)) ds r
    (splitOnSep_ne_nil '\n' '\n' _) h
  constructor
  · show (drainLoop pd (splitOnSep '\n' '\n' (x ++ y))).1 = ds
    rw [splitOnSep_append '\n' '\n' y x]
    exact key.1
  · show (drainLoop pd (splitOnSep '\n' '\n' (x ++ y))).2.1 = true
    rw [splitOnSep_append '\n' '\n' y x]
    exact key.2

/-- One step of the decoder on a cons chunk list. -/
theorem parseSse_cons (pd : Str → Option Str) (c : Str) (cs : List Str)
    (buffer : Str) :
    parseSseToTextStream pd (c :: cs) buffer =
      (let d := drainFrames pd (buffer ++ c)
       if d.2.1 then (d.1, true)
       else
         let out := parseSseToTextStream pd cs d.2.2
         (d.1 ++ out.1, out.2)) := rfl

/-- Merging two adjacent upstream chunks does not change the decoder's
output: frame boundaries are found in the accumulated buffer, not in the
individual chunks. -/
theorem parseSse_merge (pd : Str → Option Str) (c1 c2 : Str) (cs : List Str)
    (buf : Str) :
    parseSseToTextStream pd (c1 :: c2 :: cs) buf =
      parseSseToTextStream pd ((c1 ++ c2) :: cs) buf := by
  rw [parseSse_cons pd c1 (c2 :: cs) buf, parseSse_cons pd (c1 ++ c2) cs buf]
  simp only
  have hassoc : buf ++ (c1 ++ c2) = (buf ++ c1) ++ c2 := by
    rw [List.append_assoc]
  rw [hassoc]
  by_cases h1 : (drainFrames pd (buf ++ c1)).2.1 = true
  · have hd : drainFrames pd (buf ++ c1) =
        ((drainFrames pd (buf ++ c1)).1, true,
          (drainFrames pd (buf ++ c1)).2.2) := by
      calc drainFrames pd (buf ++ c1)
          = ((drainFrames pd (buf ++ c1)).1, (drainFrames pd (buf ++ c1)).2.1,
              (drainFrames pd (buf ++ c1)).2.2) := rfl
        _ = _ := by rw [h1]
    obtain ⟨hds, hflag⟩ := drainFrames_append_done pd (buf ++ c1) c2
      (drainFrames pd (buf ++ c1)).1 (drainFrames pd (buf ++ c1)).2.2 hd
    rw [if_pos h1, if_pos hflag, hds]
  · have hd : drainFrames pd (buf ++ c1) =
        ((drainFrames pd (buf ++ c1)).1, false,
          (drainFrames pd (buf ++ c1)).2.2) := by
      calc drainFrames pd (buf ++ c1)
          = ((drainFrames pd (buf ++ c1)).1, (drainFrames pd (buf ++ c1)).2.1,
              (drainFrames pd (buf ++ c1)).2.2) := rfl
        _ = _ := by rw [Bool.of_not_eq_true h1]
    have happ := drainFrames_append pd (buf ++ c1) c2
      (drainFrames pd (buf ++ c1)).1 (drainFrames pd (buf ++ c1)).2.2 hd
    rw [if_neg h1, happ]
    rw [parseSse_cons pd c2 cs (drainFrames pd (buf ++ c1)).2.2]
    simp only
    by_cases h2 : (drainFrames pd ((drainFrames pd (buf ++ c1)).2.2 ++ c2)).2.1 = true
    · simp only [h2, if_true]
    · simp only [h2, if_false, Bool.false_eq_true]
      simp [List.append_assoc]

/-- The decoder's output depends only on the concatenation of the upstream
chunks: any chunking of the same byte stream decodes identically. -/
theorem parseSse_flatten (pd : Str → Option Str) : ∀ (cs : List Str)
    (buf : Str), cs ≠ [] →
    parseSseToTextStream pd cs buf = parseSseToTextStream pd [cs.flatten] buf
  | [], _, h => absurd rfl h
  | [c], buf, _ => by simp
  | c1 :: c2 :: cs, buf, _ => by
    rw [parseSse_merge pd c1 c2 cs buf]
    rw [parseSse_flatten pd ((c1 ++ c2) :: cs) buf (by simp)]
    simp
termination_by cs buf _ => cs.length
decreasing_by simp

/-- Processing the rendered segments of sentinel-free well-formed frames
emits every frame's deltas in order and leaves the tail as remainder. -/
theorem drainLoop_frames (pd : Str → Option Str) : ∀ (fs : List (List Str))
    (tail : Str), wfFrames fs → (∀ f ∈ fs, frameDone f = false) →
    drainLoop pd (fs.map joinLines ++ [tail]) =
      ((fs.map (frameDeltas pd)).flatten, false, tail)
  | [], tail, _, _ => by simp [drainLoop]
  | f :: fs', tail, hwf, hnd => by
    have hx : (f :: fs').map joinLines ++ [tail] =
        joinLines f :: (fs'.map joinLines ++ [tail]) := by simp
    rw [hx]
    obtain ⟨q0, qs', hq⟩ : ∃ q0 qs', fs'.map joinLines ++ [tail] = q0 :: qs' := by
      cases hc : fs'.map joinLines ++ [tail] with
      | nil => simp at hc
      | cons q0 qs' => exact ⟨q0, qs', rfl⟩
    rw [hq, drainLoop_cons]
    simp only
    rw [extract_joinLines pd f (hwf f (by simp))]
    simp only [hnd f (by simp), Bool.false_eq_true, if_false]
    rw [← hq, drainLoop_frames pd fs' tail (fun x hx2 => hwf x (by simp [hx2]))
      (fun x hx2 => hnd x (by simp [hx2]))]
    simp

/-- Processing rendered frames stops at the first frame carrying the
sentinel: its deltas are still emitted, the flag is set, and everything
after it in the segment list is never extracted. -/
theorem drainLoop_frames_done (pd : Str → Option Str) : ∀ (fs : List (List Str))
    (fd : List Str) (rest : List Str), wfFrames fs → wfFrame fd →
    (∀ f ∈ fs, frameDone f = false) → frameDone fd = true → rest ≠ [] →
    drainLoop pd (fs.map joinLines ++ joinLines fd :: rest) =
      ((fs.map (frameDeltas pd)).flatten ++ frameDeltas pd fd, true,
        sepJoin '\n' '\n' rest)
  | [], fd, rest, _, hwfd, _, hd, hrest => by
    obtain ⟨q0, qs', hq⟩ : ∃ q0 qs', rest = q0 :: qs' := by
      cases rest with
      | nil => exact absurd rfl hrest
      | cons q0 qs' => exact ⟨q0, qs', rfl⟩
    rw [show ([] : List (List Str)).map joinLines ++ joinLines fd :: rest =
      joinLines fd :: rest from by simp, hq, drainLoop_cons]
    simp only
    rw [extract_joinLines pd fd hwfd]
    simp only [hd, if_true]
    simp [← hq]
  | f :: fs', fd, rest, hwf, hwfd, hnd, hd, hrest => by
    have hx : (f :: fs').map joinLines ++ joinLines fd :: rest =
        joinLines f :: (fs'.map joinLines ++ joinLines fd :: rest) := by simp
    rw [hx]
    obtain ⟨q0, qs', hq⟩ : ∃ q0 qs',
        fs'.map joinLines ++ joinLines fd :: rest = q0 :: qs' := by
      cases hc : fs'.map joinLines ++ joinLines fd :: rest with
      | nil => simp at hc
      | cons q0 qs' => exact ⟨q0, qs', rfl⟩
    rw [hq, drainLoop_cons]
    simp only
    rw [extract_joinLines pd f (hwf f (by simp))]
    simp only [hnd f (by simp), Bool.false_eq_true, if_false]
    rw [← hq, drainLoop_frames_done pd fs' fd rest
      (fun x hx2 => hwf x (by simp [hx2])) hwfd
      (fun x hx2 => hnd x (by simp [hx2])) hd hrest]
    simp

/-- The end-of-stream flush step of the decoder. -/
theorem parseSse_nil (pd : Str → Option Str) (buffer : Str) :
    parseSseToTextStream pd [] buffer =
      (let b := trim buffer
       if b = [] then ([], false)
       else ((extractTextChunks pd b).1, false)) := rfl

/-- Claim C1: for every sequence of SSE frames whose data lines end in the
literal sentinel `[DONE]` (only the last frame carries the sentinel),
delivered as byte chunks split at arbitrary boundaries, the decoder emits
exactly the concatenation of all valid choices-delta content strings, in
the order the frames and their lines appear, and then closes the output
stream (the `true` component: closed by the sentinel, cancelling the
upstream reader). -/
theorem claim_C1 (pd : Str → Option Str) (fs : List (List Str))
    (fd : List Str) (cs : List Str)
    (hwf : wfFrames (fs ++ [fd]))
    (hnd : ∀ f ∈ fs, frameDone f = false)
    (hd : frameDone fd = true)
    (hcs : cs ≠ [])
    (hjoin : cs.flatten = renderFrames (fs ++ [fd])) :
    parseSseToTextStream pd cs [] =
      ((fs.map (frameDeltas pd)).flatten ++ frameDeltas pd fd, true) := by
  rw [parseSse_flatten pd cs [] hcs, hjoin, parseSse_cons]
  simp only
  have hsplit : splitOnSep '\n' '\n' (([] : Str) ++ renderFrames (fs ++ [fd])) =
      fs.map joinLines ++ joinLines fd :: [[]] := by
    rw [List.nil_append,
      show renderFrames (fs ++ [fd]) = renderFrames (fs ++ [fd]) ++ []
        from (List.append_nil _).symm,
      splitOnSep_renderFrames (fs ++ [fd]) [] hwf rfl]
    simp
  have hdrain : drainFrames pd (([] : Str) ++ renderFrames (fs ++ [fd])) =
      ((fs.map (frameDeltas pd)).flatten ++ frameDeltas pd fd, true, []) := by
    show drainLoop pd _ = _
    rw [hsplit, drainLoop_frames_done pd fs fd [[]]
      (fun x hx => hwf x (by simp [hx])) (hwf fd (by simp)) hnd hd (by simp)]
    rfl
  rw [hdrain]
  simp

/-- Claim C2: when the `[DONE]` sentinel appears inside a frame, the decoder
stops at that frame: it emits the deltas collected from that frame (its
data lines are all scanned, including lines after the sentinel), closes the
output as sentinel-terminated (`true`, upon which the source cancels the
upstream reader), and emits nothing from any later frame — the conclusion
does not depend on `later`, the entire remainder of the stream after the
sentinel frame's boundary. -/
theorem claim_C2 (pd : Str → Option Str) (fs : List (List Str))
    (fd : List Str) (later : Str) (cs : List Str)
    (hwf : wfFrames (fs ++ [fd]))
    (hnd : ∀ f ∈ fs, frameDone f = false)
    (hd : frameDone fd = true)
    (hcs : cs ≠ [])
    (hjoin : cs.flatten = renderFrames (fs ++ [fd]) ++ later) :
    parseSseToTextStream pd cs [] =
      ((fs.map (frameDeltas pd)).flatten ++ frameDeltas pd fd, true) := by
  rw [parseSse_flatten pd cs [] hcs, hjoin, parseSse_cons]
  simp only
  have hsplitA : splitOnSep '\n' '\n' (renderFrames (fs ++ [fd])) =
      (fs ++ [fd]).map joinLines ++ [[]] := by
    rw [show renderFrames (fs ++ [fd]) = renderFrames (fs ++ [fd]) ++ []
        from (List.append_nil _).symm,
      splitOnSep_renderFrames (fs ++ [fd]) [] hwf rfl]
  have hsplit : splitOnSep '\n' '\n'
      (([] : Str) ++ (renderFrames (fs ++ [fd]) ++ later)) =
      fs.map joinLines ++ joinLines fd :: splitOnSep '\n' '\n' later := by
    rw [List.nil_append, splitOnSep_append '\n' '\n' later _, hsplitA]
    have h1 : ((fs ++ [fd]).map joinLines ++ [[]]).dropLast =
        (fs ++ [fd]).map joinLines := by
      rw [List.dropLast_concat]
    have h2 : ((fs ++ [fd]).map joinLines ++ [([] : Str)]).getLastD [] =
        ([] : Str) := by
      rw [List.getLastD_eq_getLast?, List.getLast?_append_cons]
      rfl
    rw [h1, h2, List.nil_append]
    simp
  have hdrain : drainFrames pd
      (([] : Str) ++ (renderFrames (fs ++ [fd]) ++ later)) =
      ((fs.map (frameDeltas pd)).flatten ++ frameDeltas pd fd, true,
        sepJoin '\n' '\n' (splitOnSep '\n' '\n' later)) := by
    show drainLoop pd _ = _
    rw [hsplit, drainLoop_frames_done pd fs fd (splitOnSep '\n' '\n' later)
      (fun x hx => hwf x (by simp [hx])) (hwf fd (by simp)) hnd hd
      (splitOnSep_ne_nil '\n' '\n' later)]
  rw [hdrain]
  simp

/-- Claim C9: when the upstream ends without the sentinel having been seen,
the decoder processes the complete frames, then flushes: the remaining
buffer, trimmed, is processed as exactly one final frame when nonempty
(emitting its deltas) and the output closes as end-of-stream (`false`);
when the trimmed remainder is empty nothing further is emitted. -/
theorem claim_C9 (pd : Str → Option Str) (fs : List (List Str)) (tail : Str)
    (cs : List Str)
    (hwf : wfFrames fs)
    (hnd : ∀ f ∈ fs, frameDone f = false)
    (htail : splitOnSep '\n' '\n' tail = [tail])
    (htnd : (extractTextChunks pd (trim tail)).2 = false)
    (hcs : cs ≠ [])
    (hjoin : cs.flatten = renderFrames fs ++ tail) :
    parseSseToTextStream pd cs [] =
      ((fs.map (frameDeltas pd)).flatten ++
        (if trim tail = [] then []
         else (extractTextChunks pd (trim tail)).1), false) := by
  rw [parseSse_flatten pd cs [] hcs, hjoin, parseSse_cons]
  simp only
  have hdrain : drainFrames pd (([] : Str) ++ (renderFrames fs ++ tail)) =
      ((fs.map (frameDeltas pd)).flatten, false, tail) := by
    show drainLoop pd _ = _
    rw [List.nil_append, splitOnSep_renderFrames fs tail hwf htail]
    exact drainLoop_frames pd fs tail hwf hnd
  rw [hdrain]
  simp only [Bool.false_eq_true, if_false, parseSse_nil]
  by_cases hb : trim tail = []
  · simp [hb]
  · simp [hb]

theorem claim_C1_witness :
    parseSseToTextStream pdSample
      [lit "data: payl", lit "oad-A\n\nevent: ping\ndata: payload-B\n\nda",
        lit "ta: [DONE]\n\n"] [] = ([lit "alpha", lit "beta"], true) := by
  rw [claim_C1 pdSample
    [[lit "data: payload-A"], [lit "event: ping", lit "data: payload-B"]]
    [lit "data: [DONE]"]
    [lit "data: payl", lit "oad-A\n\nevent: ping\ndata: payload-B\n\nda",
      lit "ta: [DONE]\n\n"]
    (by simp only [wfFrames, wfFrame, wfLine]; decide)
    (by decide) (by decide) (by decide) (by decide)]
  decide

theorem claim_C2_witness :
    parseSseToTextStream pdSample
      [lit "data: [DONE]\ndata: payl",
        lit "oad-A\n\ndata: payload-B\n\ntruncated junk"] [] =
      ([lit "alpha"], true) := by
  rw [claim_C2 pdSample []
    [lit "data: [DONE]", lit "data: payload-A"]
    (lit "data: payload-B\n\ntruncated junk")
    [lit "data: [DONE]\ndata: payl",
      lit "oad-A\n\ndata: payload-B\n\ntruncated junk"]
    (by simp only [wfFrames, wfFrame, wfLine]; decide)
    (by decide) (by decide) (by decide) (by decide)]
  decide

theorem claim_C9_witness :
    parseSseToTextStream pdSample
      [lit "data: payload-A\n", lit "\n  data: payl", lit "oad-B  "] [] =
      ([lit "alpha", lit "beta"], false) := by
  rw [claim_C9 pdSample [[lit "data: payload-A"]] (lit "  data: payload-B  ")
    [lit "data: payload-A\n", lit "\n  data: payl", lit "oad-B  "]
    (by simp only [wfFrames, wfFrame, wfLine]; decide)
    (by decide) (by decide) (by decide) (by decide) (by decide)]
  decide

/-- Claim C3: for every execution of the image stream driver — success,
non-OK response, no usable image, or thrown request — the emitted chunk
sequence ends with `text-end`, `finish-step`, `finish`; it contains exactly
one `finish`; and on failure an `error` chunk precedes (does not replace)
that closing sequence. -/
theorem claim_C3 (authed : Bool) (sub : Option Int) (o : ImageOutcome) :
    (∃ pre, (createImageStream authed sub o).1 =
      pre ++ [Chunk.textEnd textStreamId, Chunk.finishStep, Chunk.finish]) ∧
    (createImageStream authed sub o).1.count Chunk.finish = 1 ∧
    (∀ m, (generateImage authed sub o).2 = Except.error m →
      ∃ pre, (createImageStream authed sub o).1 =
        pre ++ [Chunk.error m, Chunk.textEnd textStreamId, Chunk.finishStep,
          Chunk.finish]) := by
  cases hg : (generateImage authed sub o).2 with
  | ok img =>
    have hc : (createImageStream authed sub o).1 =
        [Chunk.start, Chunk.startStep, Chunk.textStart textStreamId,
         Chunk.textDelta textStreamId generatingLit,
         Chunk.textEnd textStreamId, Chunk.finishStep,
         Chunk.startStep, Chunk.textStart textStreamId,
         Chunk.textDelta textStreamId (mdImage img.url),
         Chunk.textEnd textStreamId, Chunk.finishStep, Chunk.finish] := by
      simp only [createImageStream]
      rw [hg]
      simp
    refine ⟨⟨[Chunk.start, Chunk.startStep, Chunk.textStart textStreamId,
      Chunk.textDelta textStreamId generatingLit,
      Chunk.textEnd textStreamId, Chunk.finishStep,
      Chunk.startStep, Chunk.textStart textStreamId,
      Chunk.textDelta textStreamId (mdImage img.url)], by simp [hc]⟩, ?_, ?_⟩
    · rw [hc]
      simp [List.count_cons, List.count_nil]
    · intro m hm
      exact absurd hm (by simp)
  | error m0 =>
    have hc : (createImageStream authed sub o).1 =
        [Chunk.start, Chunk.startStep, Chunk.textStart textStreamId,
         Chunk.textDelta textStreamId generatingLit,
         Chunk.error m0, Chunk.textEnd textStreamId, Chunk.finishStep,
         Chunk.finish] := by
      simp only [createImageStream]
      rw [hg]
      simp
    refine ⟨⟨[Chunk.start, Chunk.startStep, Chunk.textStart textStreamId,
      Chunk.textDelta textStreamId generatingLit, Chunk.error m0],
      by simp [hc]⟩, ?_, ?_⟩
    · rw [hc]
      simp [List.count_cons, List.count_nil]
    · intro m hm
      have hm0 : m0 = m := by
        cases hm
        rfl
      exact ⟨[Chunk.start, Chunk.startStep, Chunk.textStart textStreamId,
        Chunk.textDelta textStreamId generatingLit], by rw [hc, ← hm0]; simp⟩

theorem claim_C3_witness :
    (createImageStream false none (ImageOutcome.throws (lit "boom"))).1.count
        Chunk.finish = 1 ∧
    ∃ pre, (createImageStream false none (ImageOutcome.throws (lit "boom"))).1 =
      pre ++ [Chunk.error (lit "boom"), Chunk.textEnd textStreamId,
        Chunk.finishStep, Chunk.finish] := by
  have h := claim_C3 false none (ImageOutcome.throws (lit "boom"))
  exact ⟨h.2.1, h.2.2 (lit "boom") rfl⟩

/-- Bracketing is preserved by a run of text deltas for the constant id. -/
theorem wellBracketed_deltas (ds : List Str) (rest : List Chunk) :
    wellBracketed (ds.map (fun d => Chunk.textDelta textStreamId d) ++ rest)
      true = wellBracketed rest true := by
  induction ds with
  | nil => rfl
  | cons d ds ih =>
    show (true && _) = _
    rw [Bool.true_and]
    exact ih

/-- Claim C10: every `text-start` / `text-delta` / `text-end` chunk emitted
by either stream driver carries the constant id `"text-1"`, and in every
emitted sequence each `text-delta` is bracketed by a matching `text-start`
and `text-end` (the image driver's success path ends the id and finishes
the step before restarting the same id in the second step). -/
theorem claim_C10 (authed : Bool) (sub : Option Int) (o : ImageOutcome)
    (deltas : List Str) :
    (textIdsOk (createImageStream authed sub o).1 = true ∧
      wellBracketed (createImageStream authed sub o).1 false = true) ∧
    (textIdsOk (toUiMessageStream deltas) = true ∧
      wellBracketed (toUiMessageStream deltas) false = true) := by
  refine ⟨?_, ?_, ?_⟩
  · cases hg : (generateImage authed sub o).2 with
    | ok img =>
      have hc : (createImageStream authed sub o).1 =
          [Chunk.start, Chunk.startStep, Chunk.textStart textStreamId,
           Chunk.textDelta textStreamId generatingLit,
           Chunk.textEnd textStreamId, Chunk.finishStep,
           Chunk.startStep, Chunk.textStart textStreamId,
           Chunk.textDelta textStreamId (mdImage img.url),
           Chunk.textEnd textStreamId, Chunk.finishStep, Chunk.finish] := by
        simp only [createImageStream]
        rw [hg]
        simp
      rw [hc]
      constructor
      · simp [textIdsOk]
      · simp [wellBracketed]
    | error m0 =>
      have hc : (createImageStream authed sub o).1 =
          [Chunk.start, Chunk.startStep, Chunk.textStart textStreamId,
           Chunk.textDelta textStreamId generatingLit,
           Chunk.error m0, Chunk.textEnd textStreamId, Chunk.finishStep,
           Chunk.finish] := by
        simp only [createImageStream]
        rw [hg]
        simp
      rw [hc]
      constructor
      · simp [textIdsOk]
      · simp [wellBracketed]
  · unfold toUiMessageStream textIdsOk
    simp [List.all_append, List.all_map]
  · unfold toUiMessageStream
    show wellBracketed (Chunk.start :: Chunk.startStep ::
      Chunk.textStart textStreamId ::
      (deltas.map (fun d => Chunk.textDelta textStreamId d) ++
        [Chunk.textEnd textStreamId, Chunk.finishStep, Chunk.finish])) false = true
    show (!false && wellBracketed
      (deltas.map (fun d => Chunk.textDelta textStreamId d) ++
        [Chunk.textEnd textStreamId, Chunk.finishStep, Chunk.finish]) true) = true
    rw [Bool.not_false, Bool.true_and, wellBracketed_deltas]
    rfl

/-- Counterexample to claim C4 as stated: for a non-2xx response whose body
reads as the empty string and whose status line text is also empty, the
claim predicts `message = statusText = ""`, but the source computes
`errorText || statusText || "Request failed"` and reports
`"Request failed"`. -/
theorem claim_C4_counterexample :
    (sendMessages pdSample false none [] FetchOutcome.throws
        (ImageOutcome.ok none)
        (ChatFetch.resp false 500 [] (some []) false [])).sink =
      [none, some { status := 500, statusText := [], authed := false,
                    sub := none, message := lit "Request failed" }] ∧
    lit "Request failed" ≠ ([] : Str) := by
  constructor
  · rfl
  · decide

/-- Claim C4 (amended): for every chat completions response with a non-2xx
status, `sendMessages` invokes the error sink — after the initial
`onError(null)` — with a `TransportErrorInfo` whose status and statusText
are the response's and whose message is the response body text, falling
back to the status line text when the body is unreadable or empty and to
the constant `"Request failed"` when the status line text is also empty;
it then raises, and no UI chunk is emitted for that call (the result is a
raised error, not a chunk stream). -/
theorem claim_C4 (pd : Str → Option Str) (authed : Bool) (sub : Option Int)
    (messages : List UIMsg) (detect : FetchOutcome) (img : ImageOutcome)
    (status : Int) (statusText : Str) (textResult : Option Str)
    (hasBody : Bool) (bodyChunks : List Str)
    (hpath : getLastUserText messages = [] ∨ isImageGenRequest detect = false) :
    (sendMessages pd authed sub messages detect img
        (ChatFetch.resp false status statusText textResult hasBody
          bodyChunks)).sink =
      [none, some { status := status, statusText := statusText,
                    authed := authed, sub := sub,
                    message := nonOkMessage statusText textResult }] ∧
    ∃ m, (sendMessages pd authed sub messages detect img
        (ChatFetch.resp false status statusText textResult hasBody
          bodyChunks)).result = SendResult.raised m := by
  have hcond : ¬(getLastUserText messages ≠ [] ∧
      isImageGenRequest detect = true) := by
    rcases hpath with h | h
    · intro hc
      exact hc.1 h
    · intro hc
      rw [h] at hc
      exact absurd hc.2 (by simp)
  unfold sendMessages
  rw [if_neg hcond]
  simp only
  constructor
  · have hmsg : (if (textResult.getD statusText) ≠ [] then textResult.getD statusText
        else if statusText ≠ [] then statusText else lit "Request failed") =
        nonOkMessage statusText textResult := by
      unfold nonOkMessage
      cases textResult with
      | none =>
        simp only [Option.getD]
        by_cases hs : statusText = []
        · simp [hs]
        · simp [hs]
      | some t =>
        simp only [Option.getD]
        by_cases ht : t = []
        · by_cases hs : statusText = []
          · simp [ht, hs]
          · simp [ht, hs]
        · simp [ht]
    rw [hmsg]
    simp
  · exact ⟨_, rfl⟩

theorem claim_C4_witness :
    (sendMessages pdSample false none [] FetchOutcome.throws
        (ImageOutcome.ok none)
        (ChatFetch.resp false 429 (lit "Too Many Requests")
          (some (lit "rate limited")) false [])).sink =
      [none, some { status := 429, statusText := lit "Too Many Requests",
                    authed := false, sub := none,
                    message := lit "rate limited" }] ∧
    ∃ m, (sendMessages pdSample false none [] FetchOutcome.throws
        (ImageOutcome.ok none)
        (ChatFetch.resp false 429 (lit "Too Many Requests")
          (some (lit "rate limited")) false [])).result =
      SendResult.raised m := by
  have h := claim_C4 pdSample false none [] FetchOutcome.throws
    (ImageOutcome.ok none) 429 (lit "Too Many Requests")
    (some (lit "rate limited")) false [] (Or.inl rfl)
  refine ⟨?_, h.2⟩
  rw [h.1]
  rfl

/-- Claim C5: the classifier returns `true` only when the detection
response has a successful HTTP status AND the decoded body's boolean flag
is explicitly `true`; when the request throws, the status is non-OK, the
body is malformed JSON (`res.json()` throws), or the flag is `false` or
absent, it returns `false` — and, being total, it never raises.  The
hypothesis records the endpoint's declared contract that the flag field,
when present, is a boolean; the source coerces with `Boolean(...)`, so a
non-boolean truthy flag value outside that contract would also map to
`true`. -/
theorem claim_C5 (o : FetchOutcome) (h : flagBoolTyped o) :
    isImageGenRequest o = claimClassifier o := by
  cases o with
  | throws => rfl
  | response ok body =>
    cases ok with
    | false => rfl
    | true =>
      show isImageGenRequest (FetchOutcome.response true body) =
        claimClassifier (FetchOutcome.response true body)
      have hflag : ∀ v, flagOfBody body = some v → ∃ b, v = JVal.jbool b := h
      unfold isImageGenRequest claimClassifier
      simp only [if_true]
      cases body with
      | none => rfl
      | some v =>
        cases v with
        | jnull => rfl
        | jbool b => rfl
        | jnum n => rfl
        | jstr s => rfl
        | jarr xs => rfl
        | jobj fields =>
          show (match jlookup (lit "is_image_gen_request") fields with
                | some v => truthy v
                | none => false) =
               (match flagOfBody (some (JVal.jobj fields)) with
                | some (JVal.jbool true) => true
                | _ => false)
          cases hl : jlookup (lit "is_image_gen_request") fields with
          | none =>
            have : flagOfBody (some (JVal.jobj fields)) = none := hl
            rw [this]
          | some v =>
            have hfv : flagOfBody (some (JVal.jobj fields)) = some v := hl
            obtain ⟨b, hb⟩ := hflag v hfv
            rw [hfv, hb]
            cases b with
            | false => rfl
            | true => rfl

theorem claim_C5_witness :
    isImageGenRequest FetchOutcome.throws = false ∧
    isImageGenRequest (FetchOutcome.response false
      (some (JVal.jobj [(lit "is_image_gen_request", JVal.jbool true)]))) =
      false ∧
    isImageGenRequest (FetchOutcome.response true none) = false ∧
    isImageGenRequest (FetchOutcome.response true (some (JVal.jobj
      [(lit "is_image_gen_request", JVal.jbool false)]))) = false ∧
    isImageGenRequest (FetchOutcome.response true (some (JVal.jobj
      [(lit "other_field", JVal.jbool true)]))) = false ∧
    isImageGenRequest detectTrueSample = true := by
  refine ⟨?_, ?_, ?_, ?_, ?_, ?_⟩
  · rw [claim_C5 FetchOutcome.throws trivial]
    rfl
  · rw [claim_C5 (FetchOutcome.response false
      (some (JVal.jobj [(lit "is_image_gen_request", JVal.jbool true)])))
      trivial]
    rfl
  · rw [claim_C5 (FetchOutcome.response true none) (fun v hv => by
      exact absurd hv (by simp [flagOfBody]))]
    rfl
  · rw [claim_C5 (FetchOutcome.response true (some (JVal.jobj
      [(lit "is_image_gen_request", JVal.jbool false)]))) (fun v hv => by
      refine ⟨false, ?_⟩
      have : some (JVal.jbool false) = some v := by
        rw [← hv]
        rfl
      cases this
      rfl)]
    rfl
  · rw [claim_C5 (FetchOutcome.response true (some (JVal.jobj
      [(lit "other_field", JVal.jbool true)]))) (fun v hv => by
      exact absurd hv (by simp [flagOfBody, jlookup, lit]))]
    rfl
  · rw [claim_C5 detectTrueSample (fun v hv => by
      refine ⟨true, ?_⟩
      have : some (JVal.jbool true) = some v := by
        rw [← hv]
        rfl
      cases this
      rfl)]
    rfl

/-- Claim C6 evaluated at the failing input: with the key absent from the
primary store and `document.cookie = "id_token=%"`, the cookie fallback
reaches `decodeURIComponent("%")`, which throws `URIError` — outside any
`try` block, so `getStoredToken` raises to the caller, contradicting the
claim that it never raises.  The second conjunct shows the claim's
null-when-absent part (with a throwing primary store and no matching
cookie) does hold. -/
theorem claim_C6 :
    getStoredToken (PrimaryStore.available [])
        (some (lit "id_token=%")) (lit "id_token") = Except.error () ∧
    getStoredToken PrimaryStore.throwing
        (some (lit "other=x; also=y")) (lit "id_token") = Except.ok none := by
  constructor
  · rfl
  · rfl

/-- Counterexample to claim C7 as stated: a message whose parts are three
text-tagged parts with texts `"a"`, `""`, `"b"`.  The claim's
"concatenating all parts tagged as text joined by newline" gives
`"a\n\nb"`, but the source drops empty texts (`filter(Boolean)`) before
joining and produces `"a\nb"`. -/
theorem claim_C7_counterexample :
    toOpenAIMessages [msgC7] =
      [{ role := lit "user", content := lit "a\nb" }] ∧
    claimToOpenAIMessages [msgC7] =
      [{ role := lit "user", content := lit "a\n\nb" }] ∧
    toOpenAIMessages [msgC7] ≠ claimToOpenAIMessages [msgC7] := by
  refine ⟨rfl, rfl, ?_⟩
  decide

/-- The code's per-part text is the claim's tagged text with `""` for
untagged parts. -/
theorem partText_eq_tagged (p : JVal) :
    partText p = (partTextTagged p).getD [] := by
  cases p with
  | jnull => rfl
  | jbool b => rfl
  | jnum n => rfl
  | jstr s => rfl
  | jarr xs => rfl
  | jobj fields =>
    simp only [partText, partTextTagged]
    cases ht : jlookup (lit "type") fields with
    | none => simp [ht]
    | some tv =>
      cases tv with
      | jstr t =>
        simp only [ht]
        by_cases htxt : t = lit "text"
        · simp only [if_pos htxt]
          cases hx : jlookup (lit "text") fields with
          | none => simp [hx]
          | some xv => cases xv <;> simp [hx]
        · simp [if_neg htxt]
      | jnull => simp [ht]
      | jbool b => simp [ht]
      | jnum n => simp [ht]
      | jarr xs => simp [ht]
      | jobj fs => simp [ht]

/-- Dropping empty strings commutes between the code's map-then-filter and
the amended claim's filterMap-then-filter. -/
theorem partTexts_eq (parts : List JVal) :
    (parts.map partText).filter (fun s => s ≠ []) =
      (parts.filterMap partTextTagged).filter (fun s => s ≠ []) := by
  induction parts with
  | nil => rfl
  | cons p ps ih =>
    simp only [List.map_cons, List.filterMap_cons]
    cases hp : partTextTagged p with
    | none =>
      have hpt : partText p = [] := by rw [partText_eq_tagged, hp]; rfl
      rw [hpt]
      simp only [List.filter_cons]
      simpa using ih
    | some s =>
      have hpt : partText p = s := by rw [partText_eq_tagged, hp]; rfl
      rw [hpt]
      by_cases hs : s = []
      · simp only [List.filter_cons, hs]
        simpa using ih
      · have ih' : List.filter (fun x => !decide (x = []))
              (List.map partText ps) =
            List.filter (fun x => !decide (x = []))
              (List.filterMap partTextTagged ps) := by
          simpa using ih
        simp [List.filter_cons, hs, ih']

/-- The code's extraction equals the amended claim's extraction. -/
theorem extractText_eq_amended (m : UIMsg) :
    extractText m = amendedExtractText m := by
  unfold extractText amendedExtractText
  cases hp : m.parts with
  | none => rfl
  | some v =>
    cases v with
    | jarr parts =>
      simp only [partTexts_eq parts]
      by_cases hb : trim (joinLines
          ((parts.filterMap partTextTagged).filter (fun s => s ≠ []))) = []
      · simp [hb]
      · simp [hb]
    | jnull => rfl
    | jbool b => rfl
    | jnum n => rfl
    | jstr s => rfl
    | jobj fs => rfl

/-- Claim C7 (amended): `toOpenAIMessages` keeps only `system` / `user` /
`assistant` roles; for each kept message it extracts text by concatenating
all parts tagged as text whose text is nonempty, joined by newline, falling
back to the legacy flat string/array-of-parts content shape when the
parts-derived text is empty after trimming; and it drops every message
whose extracted text is empty after trimming. -/
theorem claim_C7 (msgs : List UIMsg) :
    toOpenAIMessages msgs = amendedToOpenAIMessages msgs := by
  unfold toOpenAIMessages amendedToOpenAIMessages
  have hmap : ∀ ms : List UIMsg,
      ms.map (fun m => ({ role := m.role, content := extractText m } : OpenAIMsg)) =
      ms.map (fun m =>
        ({ role := m.role, content := amendedExtractText m } : OpenAIMsg)) := by
    intro ms
    induction ms with
    | nil => rfl
    | cons m ms ih => simp [extractText_eq_amended m, ih]
  rw [hmap]

/-- Claim C8: for every call classified as an image-generation request
(nonempty last user text and the classifier answering `true`),
`sendMessages` dispatches to the image stream driver with the no-watermark
flag `nologo = subAtLeast2 sub`, which is `true` exactly when the resolved
subscription tier is defined and at least 2; when the tier is undefined,
`nologo` is `false` and the output chunk sequence starts with `start`,
`start-step`, `text-start`, `text-delta("🖼️ Generating image...")`. -/
theorem claim_C8 (pd : Str → Option Str) (authed : Bool) (sub : Option Int)
    (messages : List UIMsg) (detect : FetchOutcome) (img : ImageOutcome)
    (chat : ChatFetch)
    (ht : getLastUserText messages ≠ [])
    (hc : isImageGenRequest detect = true) :
    (sendMessages pd authed sub messages detect img chat).result =
      SendResult.imageStream (subAtLeast2 sub)
        (createImageStream authed sub img).1 ∧
    (subAtLeast2 sub = true ↔ ∃ s, sub = some s ∧ 2 ≤ s) ∧
    (sub = none →
      subAtLeast2 sub = false ∧
      (createImageStream authed sub img).1.take 4 =
        [Chunk.start, Chunk.startStep, Chunk.textStart textStreamId,
         Chunk.textDelta textStreamId generatingLit]) := by
  refine ⟨?_, ?_, ?_⟩
  · unfold sendMessages
    rw [if_pos ⟨ht, hc⟩]
  · unfold subAtLeast2
    cases sub with
    | none => simp
    | some s => simp
  · intro hsub
    subst hsub
    refine ⟨rfl, ?_⟩
    cases hg : (generateImage authed none img).2 with
    | ok i =>
      have hchunks : (createImageStream authed none img).1 =
          [Chunk.start, Chunk.startStep, Chunk.textStart textStreamId,
           Chunk.textDelta textStreamId generatingLit,
           Chunk.textEnd textStreamId, Chunk.finishStep,
           Chunk.startStep, Chunk.textStart textStreamId,
           Chunk.textDelta textStreamId (mdImage i.url),
           Chunk.textEnd textStreamId, Chunk.finishStep, Chunk.finish] := by
        simp only [createImageStream]
        rw [hg]
        simp
      rw [hchunks]
      rfl
    | error m =>
      have hchunks : (createImageStream authed none img).1 =
          [Chunk.start, Chunk.startStep, Chunk.textStart textStreamId,
           Chunk.textDelta textStreamId generatingLit,
           Chunk.error m, Chunk.textEnd textStreamId, Chunk.finishStep,
           Chunk.finish] := by
        simp only [createImageStream]
        rw [hg]
        simp
      rw [hchunks]
      rfl

theorem claim_C8_witness :
    (sendMessages pdSample false none [msgDrawCat] detectTrueSample
        (ImageOutcome.ok none) (ChatFetch.netError [])).result =
      SendResult.imageStream false
        (createImageStream false none (ImageOutcome.ok none)).1 ∧
    (createImageStream false none (ImageOutcome.ok none)).1.take 4 =
      [Chunk.start, Chunk.startStep, Chunk.textStart textStreamId,
       Chunk.textDelta textStreamId generatingLit] := by
  have h := claim_C8 pdSample false none [msgDrawCat] detectTrueSample
    (ImageOutcome.ok none) (ChatFetch.netError []) (by decide) (by decide)
  obtain ⟨hsub0, htake⟩ := h.2.2 rfl
  refine ⟨?_, htake⟩
  rw [h.1, hsub0]

end LLM7
